import Mathlib

/-!
Shallow embedding of the eigenvalue/eigenvector core of the repository
(`internal/usecases/derivative_usecase.go` power-method part and
`internal/usecases/similarity_transformation_usecase.go`), over exact real
arithmetic.  Go `float64` values are modelled as real numbers; `gonum`'s
dense matrices and vectors are modelled as lists of rows / lists of entries.
Calls into the external `gonum` library that perform matrix inversion
(`mat.Dense.Inverse`) and general eigen-decomposition (`mat.Eigen.Factorize`)
are modelled as explicit oracle parameters, since their numerics are not part
of this repository.  Logging (`slog`) and `context.Context` arguments carry no
semantics and are dropped.
-/

noncomputable section

abbrev Vec := List ℝ

abbrev Mat := List (List ℝ)

/-- Errors produced by the power/QR use cases.  The Go code builds them with
`errors.New` / `fmt.Errorf`; the `wrapped` constructor models wrapping via
`fmt.Errorf("...: %w", err)`. -/
inductive NumeError where
  | zeroInitialGuess
  | emptyMatrix
  | dimensionMismatch
  | singularMatrix
  | eigenDecompositionFailed
  | wrapped (e : NumeError)

/-- Result record of the power methods (`PowerResult` in the Go source). -/
structure PowerResult where
  Eigenvalue : ℝ
  Eigenvector : Vec
  NumIterations : ℕ

/-- Result record of the QR method (`QRMethodResult` in the Go source). -/
structure QRMethodResult where
  Eigenvalues : List ℝ
  Eigenvectors : Mat

/-- Result record of the Householder method (`HouseholderMethodResult`). -/
structure HouseholderMethodResult where
  HouseholderMatrix : Mat
  TriangulizedMatrix : Mat

/-- Dot product of two vectors (`mat.Dot`). -/
def dot (v w : Vec) : ℝ := (List.zipWith (fun a b => a * b) v w).sum

/-- Euclidean norm (`Norm(2)` of gonum): square root of the dot product with
itself. -/
def norm2 (v : Vec) : ℝ := Real.sqrt (dot v v)

/-- `ScaleVec c v` of gonum: multiply every entry by the scalar. -/
def scaleVec (c : ℝ) (v : Vec) : Vec := v.map (fun x => c * x)

/-- `MulVec` of gonum: matrix-vector product, one dot product per row. -/
def mulVec (M : Mat) (v : Vec) : Vec := M.map (fun row => dot row v)

/-- `At(i, j)` of gonum in the list-of-rows model (out-of-range reads give 0;
the Go code never reads out of range on the executed paths). -/
def matAt (M : Mat) (i j : ℕ) : ℝ := (M.getD i []).getD j 0

/-- Number of rows of the list-of-rows matrix. -/
def numRows (M : Mat) : ℕ := M.length

/-- Number of columns: the length of the first row (`len(matrix[0])`). -/
def numCols (M : Mat) : ℕ := (M.headD []).length

/-- `Add` of gonum (entrywise sum; both operands have equal dimensions at
every call site). -/
def addMat (A B : Mat) : Mat := List.zipWith (List.zipWith (fun x y => x + y)) A B

/-- Entrywise difference of two matrices (`Sub` of gonum). -/
def subMat (A B : Mat) : Mat := List.zipWith (List.zipWith (fun x y => x - y)) A B

/-- Scalar multiple of a matrix (`Scale` of gonum). -/
def smulMat (c : ℝ) (A : Mat) : Mat := A.map (scaleVec c)

/-- `generateIdentityMatrix` from the similarity-transformation file: an
`n x n` matrix with ones on the diagonal. -/
def generateIdentityMatrix (n : ℕ) : Mat :=
  (List.range n).map (fun i => (List.range n).map (fun j => if i = j then (1 : ℝ) else 0))

/-- The `mat.NewDense(n, n, nil)` + `Set(i, i, c)` loop used by the shifted
power variants: an `n x n` matrix with `c` on the diagonal and zeros
elsewhere. -/
def scalarDiagMatrix (n : ℕ) (c : ℝ) : Mat :=
  (List.range n).map (fun i => (List.range n).map (fun j => if i = j then c else 0))

/-- `constructMatrix` from the Go source: copies a `[][]float64` of dimensions
`rows x cols` (with `cols = len(matrix[0])`) into a dense matrix, reading
`matrix[i][j]` entry by entry. -/
def constructMatrix (matrix : Mat) : Mat :=
  (List.range (numRows matrix)).map (fun i =>
    (List.range (numCols matrix)).map (fun j => matAt matrix i j))

/-- `constructVector` from the Go source: `mat.NewVecDense(len(vector), vector)`
wraps the slice without copying. -/
def constructVector (vector : Vec) : Vec := vector

/-- `denseToSliceOfSlices` from the Go source: reads a dense `r x c` matrix
back into a slice of slices entry by entry. -/
def denseToSliceOfSlices (m : Mat) : Mat :=
  (List.range (numRows m)).map (fun i =>
    (List.range (numCols m)).map (fun j => matAt m i j))

/-- The iteration loop of `innerRegularPower` (Go:
`for currentIteration < maxNumberOfIterations { currentIteration++; ... }`),
with the remaining number of iterations as the recursion fuel.  State:
current best eigenvector, best eigenvalue and iteration counter.  Each pass
computes `Y = A * v`, breaks when `normY == 0`, otherwise takes the
Rayleigh-style estimate `possibleBestEigenvalue = Dot(Y, v)`, rescales the
eigenvector to `Y / normY`, and stops when the iteration error
`|(possibleBestEigenvalue - bestEigenvalue) / possibleBestEigenvalue|` drops
below `epsilon`.  The (only logged) `currentError` variable is dropped. -/
def powerLoop (A : Mat) (epsilon : ℝ) :
    ℕ → Vec → ℝ → ℕ → ℝ × Vec × ℕ
  | 0, bestEigenvector, bestEigenvalue, currentIteration =>
      (bestEigenvalue, bestEigenvector, currentIteration)
  | fuel + 1, bestEigenvector, bestEigenvalue, currentIteration =>
      let Y := mulVec A bestEigenvector
      let normY := norm2 Y
      if normY = 0 then (bestEigenvalue, bestEigenvector, currentIteration + 1)
      else
        let possibleBestEigenvalue := dot Y bestEigenvector
        let nextEigenvector := scaleVec (1 / normY) Y
        let iterationError :=
          |(possibleBestEigenvalue - bestEigenvalue) / possibleBestEigenvalue|
        if iterationError < epsilon then
          (possibleBestEigenvalue, nextEigenvector, currentIteration + 1)
        else
          powerLoop A epsilon fuel nextEigenvector possibleBestEigenvalue
            (currentIteration + 1)

/-- Body of `innerRegularPower`: normalize the initial guess by its L2 norm,
run the iteration loop starting from eigenvalue 0 and iteration counter 0,
and package the final state as a `PowerResult`. -/
def innerPowerResult (matrix : Mat) (initialGuess : Vec) (epsilon : ℝ)
    (maxNumberOfIterations : ℕ) : PowerResult :=
  let b0 := scaleVec (1 / norm2 initialGuess) initialGuess
  let fin := powerLoop matrix epsilon maxNumberOfIterations b0 0 0
  ⟨fin.1, fin.2.1, fin.2.2⟩

/-- `innerRegularPower` from the Go source.  Its signature declares an error
return, but every path returns the result with a nil error. -/
def innerRegularPower (matrix : Mat) (initialGuess : Vec) (epsilon : ℝ)
    (maxNumberOfIterations : ℕ) : Except NumeError PowerResult :=
  .ok (innerPowerResult matrix initialGuess epsilon maxNumberOfIterations)

/-- Oracle type modelling `gonum`'s `mat.Eigen.Factorize` + `Values` +
`VectorsTo`: on success it yields the (real parts of the) eigenvalues and the
(real parts of the) right-eigenvector matrix, whose column `i` pairs with
eigenvalue `i`; `none` models `Factorize` returning `ok == false`. -/
abbrev EigenOracle := Mat → Option (List ℝ × Mat)

/-- Oracle type modelling `gonum`'s `mat.Dense.Inverse`: `none` models the
error returned for a singular matrix. -/
abbrev InverseOracle := Mat → Option Mat

/-- The scan loop of `extractEigenvectorFromMatrix`: start from index 0 with
difference `|eigenvalues[0] - target|` and walk `i = 1 .. n-1`, keeping the
index with the strictly smaller difference. -/
def nearestEigenvalueScan (eigenvalues : List ℝ) (targetEigenvalue : ℝ) : ℕ × ℝ :=
  (List.range (eigenvalues.length - 1)).foldl
    (fun acc k =>
      let i := k + 1
      let diff := |eigenvalues.getD i 0 - targetEigenvalue|
      if diff < acc.2 then (i, diff) else acc)
    (0, |eigenvalues.getD 0 0 - targetEigenvalue|)

/-- `extractEigenvectorFromMatrix` from the Go source: run `gonum`'s
eigen-decomposition of `matrix` (the `eig` oracle), scan the returned
eigenvalues for the one closest to `targetEigenvalue`, and return the real
parts of the corresponding right-eigenvector column.  A failed factorization
is the `"eigenvalue decomposition failed"` error. -/
def extractEigenvectorFromMatrix (eig : EigenOracle) (matrix : Mat)
    (targetEigenvalue : ℝ) : Except NumeError Vec :=
  match eig matrix with
  | none => .error .eigenDecompositionFailed
  | some (eigenvalues, eigenvectors) =>
      let best := nearestEigenvalueScan eigenvalues targetEigenvalue
      let r := eigenvectors.length
      .ok ((List.range r).map (fun i => matAt eigenvectors i best.1))

/-- `RegularPower` from the Go source (the shared-core version of
`derivative_usecase.go`): validate the guess and the matrix dimensions, then
delegate to `innerRegularPower` on the matrix itself, wrapping any error of
the core. -/
def RegularPower (matrix : Mat) (initialGuess : Vec) (epsilon : ℝ)
    (maxNumberOfIterations : ℕ) : Except NumeError PowerResult :=
  if ∀ value ∈ initialGuess, value = 0 then .error .zeroInitialGuess
  else if matrix.length = 0 ∨ numCols matrix = 0 then .error .emptyMatrix
  else if numCols matrix ≠ initialGuess.length then .error .dimensionMismatch
  else
    match innerRegularPower (constructMatrix matrix) (constructVector initialGuess)
        epsilon maxNumberOfIterations with
    | .error e => .error (.wrapped e)
    | .ok result => .ok result

/-- `InversePower` from the Go source: invert the matrix (via the `inv`
oracle; failure is the wrapped singular-matrix error), run the shared core on
the inverse, and report eigenvalue `1 / lambda_core` with the core's
eigenvector and iteration count unchanged. -/
def InversePower (inv : InverseOracle) (matrix : Mat) (initialGuess : Vec)
    (epsilon : ℝ) (maxNumberOfIterations : ℕ) : Except NumeError PowerResult :=
  let originalMatrix := constructMatrix matrix
  match inv originalMatrix with
  | none => .error (.wrapped .singularMatrix)
  | some inverseMatrix =>
      match innerRegularPower inverseMatrix (constructVector initialGuess)
          epsilon maxNumberOfIterations with
      | .error e => .error (.wrapped e)
      | .ok result =>
          let eigenvalue := 1 / result.Eigenvalue
          .ok ⟨eigenvalue, result.Eigenvector, result.NumIterations⟩

/-- `FarthestEigenvaluePower` from the Go source: add the diagonal matrix with
`-1 * scalarToGoFarthest` entries to the matrix, run the shared core on the
sum, report eigenvalue `lambda_core + scalarToGoFarthest`, and recover the
eigenvector from the original matrix via the eigen-decomposition resolver. -/
def FarthestEigenvaluePower (eig : EigenOracle) (matrix : Mat)
    (initialGuess : Vec) (scalarToGoFarthest epsilon : ℝ)
    (maxNumberOfIterations : ℕ) : Except NumeError PowerResult :=
  let A := constructMatrix matrix
  let scalarFarthestMatrix := scalarDiagMatrix (numCols matrix) (-1 * scalarToGoFarthest)
  let matrixToFindLargestPowerResult := addMat A scalarFarthestMatrix
  match innerRegularPower matrixToFindLargestPowerResult (constructVector initialGuess)
      epsilon maxNumberOfIterations with
  | .error e => .error (.wrapped e)
  | .ok result =>
      let farthestEigenvalue := result.Eigenvalue + scalarToGoFarthest
      match extractEigenvectorFromMatrix eig A farthestEigenvalue with
      | .error e => .error (.wrapped e)
      | .ok eigenvector =>
          .ok ⟨farthestEigenvalue, eigenvector, result.NumIterations⟩

/-- `NearestEigenvaluePower` from the Go source: add the diagonal matrix with
`-1 * scalarToGoNearest` entries, convert back to a slice of slices, run
`InversePower` on it, report eigenvalue `lambda + scalarToGoNearest`, and
recover the eigenvector from the original matrix via the resolver. -/
def NearestEigenvaluePower (inv : InverseOracle) (eig : EigenOracle)
    (matrix : Mat) (initialGuess : Vec) (scalarToGoNearest epsilon : ℝ)
    (maxNumberOfIterations : ℕ) : Except NumeError PowerResult :=
  let A := constructMatrix matrix
  let scalarNearestMatrix := scalarDiagMatrix (numCols matrix) (-1 * scalarToGoNearest)
  let matrixToFindSmallestPowerResult := addMat A scalarNearestMatrix
  let matrixAsSlice := denseToSliceOfSlices matrixToFindSmallestPowerResult
  match InversePower inv matrixAsSlice initialGuess epsilon maxNumberOfIterations with
  | .error e => .error (.wrapped e)
  | .ok result =>
      let nearestEigenvalue := result.Eigenvalue + scalarToGoNearest
      match extractEigenvectorFromMatrix eig A nearestEigenvalue with
      | .error e => .error (.wrapped e)
      | .ok eigenvector =>
          .ok ⟨nearestEigenvalue, eigenvector, result.NumIterations⟩

/-- Column `j` of a matrix, used by the transpose and product models. -/
def matCol (M : Mat) (j : ℕ) : Vec := M.map (fun row => row.getD j 0)

/-- Matrix product (`Mul` of gonum): entry `(i, j)` is the dot product of row
`i` of `A` with column `j` of `B`. -/
def matMul (A B : Mat) : Mat :=
  A.map (fun row => (List.range (numCols B)).map (fun j => dot row (matCol B j)))

/-- Transpose (`T()` of gonum). -/
def transposeMat (M : Mat) : Mat := (List.range (numCols M)).map (fun j => matCol M j)

/-- `givensRotation` from the Go source: the numerically stable rotation
parameters, with the trivial rotation when `|b| < 1e-14`, and otherwise the
branch that divides by the larger of `|a|`, `|b|`. -/
def givensRotation (a b : ℝ) : ℝ × ℝ :=
  if |b| < 1 / 10 ^ 14 then (1, 0)
  else if |b| > |a| then
    let t := a / b
    let s0 := 1 / Real.sqrt (1 + t * t)
    let s := if b < 0 then -s0 else s0
    (s * t, s)
  else
    let t := b / a
    let c0 := 1 / Real.sqrt (1 + t * t)
    let c := if a < 0 then -c0 else c0
    (c, c * t)

/-- `applyGivensRotationLeft` from the Go source: replace rows `i` and `j` of
`M` by `c*row_i + s*row_j` and `-s*row_i + c*row_j`. -/
def applyGivensRotationLeft (M : Mat) (i j : ℕ) (c s : ℝ) : Mat :=
  let rowI := M.getD i []
  let rowJ := M.getD j []
  let newI := List.zipWith (fun x y => c * x + s * y) rowI rowJ
  let newJ := List.zipWith (fun x y => -s * x + c * y) rowI rowJ
  (M.set i newI).set j newJ

/-- `applyGivensRotationRight` from the Go source: in every row, replace the
entries at columns `i` and `j` by `c*x_i + s*x_j` and `-s*x_i + c*x_j`. -/
def applyGivensRotationRight (M : Mat) (i j : ℕ) (c s : ℝ) : Mat :=
  M.map (fun row =>
    let temp1 := row.getD i 0
    let temp2 := row.getD j 0
    (row.set i (c * temp1 + s * temp2)).set j (-s * temp1 + c * temp2))

/-- `qrDecompositionGivens` from the Go source: start from `Q = I`, `R = A`
and, for each sub-diagonal position with `|R[i+1][i]| > 1e-14`, apply the
Givens rotation to `R` from the left and accumulate it into `Q` from the
right. -/
def qrDecompositionGivens (A : Mat) : Mat × Mat :=
  let n := A.length
  (List.range (n - 1)).foldl
    (fun QR i =>
      if 1 / 10 ^ 14 < |matAt QR.2 (i + 1) i| then
        let cs := givensRotation (matAt QR.2 i i) (matAt QR.2 (i + 1) i)
        (applyGivensRotationRight QR.1 i (i + 1) cs.1 cs.2,
         applyGivensRotationLeft QR.2 i (i + 1) cs.1 cs.2)
      else QR)
    (generateIdentityMatrix n, A)

/-- `isConverged` from the Go source: true when no sub-diagonal entry exceeds
the tolerance in absolute value. -/
def isConverged (A : Mat) (tolerance : ℝ) : Bool :=
  (List.range (A.length - 1)).all
    (fun i => !(decide (tolerance < |matAt A (i + 1) i|)))

/-- `wilkinsonShift` from the Go source: from the trailing 2x2 block, compute
trace, determinant and discriminant; fall back to the corner entry `d` when
the discriminant is negative, else return whichever quadratic root is closer
to `d`. -/
def wilkinsonShift (A : Mat) : ℝ :=
  let n := A.length
  if n < 2 then 0
  else
    let a := matAt A (n - 2) (n - 2)
    let b := matAt A (n - 2) (n - 1)
    let c := matAt A (n - 1) (n - 2)
    let d := matAt A (n - 1) (n - 1)
    let trace := a + d
    let det := a * d - b * c
    let discriminant := trace * trace - 4 * det
    if discriminant < 0 then d
    else
      let sqrtDiscriminant := Real.sqrt discriminant
      let lambda1 := (trace + sqrtDiscriminant) / 2
      let lambda2 := (trace - sqrtDiscriminant) / 2
      if |d - lambda1| < |d - lambda2| then lambda1 else lambda2

/-- The `A.Set(i, i, A.At(i, i) - shift)` loop of `QRMethod`. -/
def subDiag (A : Mat) (shift : ℝ) : Mat :=
  A.mapIdx (fun i row => row.set i (row.getD i 0 - shift))

/-- The `A.Set(i, i, A.At(i, i) + shift)` loop of `QRMethod`. -/
def addDiag (A : Mat) (shift : ℝ) : Mat :=
  A.mapIdx (fun i row => row.set i (row.getD i 0 + shift))

/-- The `for iter := 0; iter < maxIterations; iter++` loop of `QRMethod`,
with the remaining iteration budget as fuel and the working matrix `A` and
eigenvector accumulator `V` as state: break on convergence, else shift by the
Wilkinson value, QR-decompose with Givens rotations, recombine `R*Q`, undo
the shift on the diagonal and accumulate `V*Q`. -/
def qrLoop (tolerance : ℝ) : ℕ → Mat → Mat → Mat × Mat
  | 0, A, V => (A, V)
  | fuel + 1, A, V =>
      if isConverged A tolerance then (A, V)
      else
        let shift := wilkinsonShift A
        let shifted := subDiag A shift
        let QR := qrDecompositionGivens shifted
        let Anext := addDiag (matMul QR.2 QR.1) shift
        let Vnext := matMul V QR.1
        qrLoop tolerance fuel Anext Vnext

/-- `QRMethod` from the Go source: iterate the shifted QR step starting from
the tridiagonal matrix and the accumulated Householder matrix, then return
the final diagonal as the eigenvalues together with the accumulated
eigenvector matrix.  The Go signature declares an error return, but every
path returns the result with a nil error. -/
def QRMethod (tridiagonalMatrix householderMatrix : Mat) (maxIterations : ℕ)
    (tolerance : ℝ) : Except NumeError QRMethodResult :=
  let n := tridiagonalMatrix.length
  let fin := qrLoop tolerance maxIterations tridiagonalMatrix householderMatrix
  .ok ⟨(List.range n).map (fun i => matAt fin.1 i i), fin.2⟩

/-- `householderSimetricMatrix` from the Go source: build the Householder
reflector that eliminates column `j` below the first sub-diagonal, returning
the identity when the sub-column (or the reflector vector) is numerically
zero.  Its Go error return is nil on every path, so it is modelled as a plain
function. -/
def householderSimetricMatrix (A : Mat) (j : ℕ) : Mat :=
  let n := A.length
  let w := (List.range n).map (fun i => if j + 1 ≤ i then matAt A i j else 0)
  let wNorm := norm2 w
  if wNorm < 1 / 10 ^ 14 then generateIdentityMatrix n
  else
    let sign : ℝ := if w.getD (j + 1) 0 < 0 then -1 else 1
    let v := w.set (j + 1) (w.getD (j + 1) 0 + sign * wNorm)
    let vNorm := norm2 v
    if vNorm < 1 / 10 ^ 14 then generateIdentityMatrix n
    else
      let vUnit := scaleVec (1 / vNorm) v
      let vvT := vUnit.map (fun x => vUnit.map (fun y => x * y))
      subMat (generateIdentityMatrix n) (smulMat 2 vvT)

/-- `HouseholderMethod` from the Go source: accumulate the reflectors of the
first `n-2` columns, transforming `A` by `H^T * A * H` at each step.  Its Go
error return is nil on every path, so it is modelled as a plain function. -/
def HouseholderMethod (matrix : Mat) : HouseholderMethodResult :=
  let n := matrix.length
  let fin := (List.range (n - 2)).foldl
    (fun state i =>
      let householderMatrixI := householderSimetricMatrix state.2 i
      let aStepI := matMul (matMul (transposeMat householderMatrixI) state.2)
        householderMatrixI
      (matMul state.1 householderMatrixI, aStepI))
    (generateIdentityMatrix n, constructMatrix matrix)
  ⟨fin.1, fin.2⟩

/-- Formalisation of the specified iteration core for comparison with
`powerLoop`: identical except that the relative error is the claimed
`|lambda_new - lambda_old| / max(|lambda_new|, |lambda_old|, 1e-15)`
with the small positive floor in the denominator. -/
def specPowerLoop (A : Mat) (epsilon : ℝ) :
    ℕ → Vec → ℝ → ℕ → ℝ × Vec × ℕ
  | 0, v, lam, iter => (lam, v, iter)
  | fuel + 1, v, lam, iter =>
      let Y := mulVec A v
      let normY := norm2 Y
      if normY = 0 then (lam, v, iter + 1)
      else
        let lamNew := dot Y v
        let vNext := scaleVec (1 / normY) Y
        let relativeError := |lamNew - lam| / max (max |lamNew| |lam|) (1 / 10 ^ 15)
        if relativeError < epsilon then (lamNew, vNext, iter + 1)
        else specPowerLoop A epsilon fuel vNext lamNew (iter + 1)

/-- The shared iteration core as the specification describes it
(`iteratePower` of spec section 4.1), built on `specPowerLoop`. -/
def specIteratePower (matrix : Mat) (initialGuess : Vec) (epsilon : ℝ)
    (maxNumberOfIterations : ℕ) : Except NumeError PowerResult :=
  let b0 := scaleVec (1 / norm2 initialGuess) initialGuess
  let fin := specPowerLoop matrix epsilon maxNumberOfIterations b0 0 0
  .ok ⟨fin.1, fin.2.1, fin.2.2⟩

/-- The iteration loop with the relative error written in the amended form
`|lambda_new - lambda_old| / |lambda_new|` (absolute difference divided by
the absolute value of the new estimate alone), for comparison with
`powerLoop`. -/
def amendedPowerLoop (A : Mat) (epsilon : ℝ) :
    ℕ → Vec → ℝ → ℕ → ℝ × Vec × ℕ
  | 0, v, lam, iter => (lam, v, iter)
  | fuel + 1, v, lam, iter =>
      let Y := mulVec A v
      let normY := norm2 Y
      if normY = 0 then (lam, v, iter + 1)
      else
        let lamNew := dot Y v
        let vNext := scaleVec (1 / normY) Y
        let relativeError := |lamNew - lam| / |lamNew|
        if relativeError < epsilon then (lamNew, vNext, iter + 1)
        else amendedPowerLoop A epsilon fuel vNext lamNew (iter + 1)

/-- Modelled from the spec:  `resolveEigenvector` of spec section 4.3 as the
claim describes it — a full eigen-decomposition of `A` through the system's
own pipeline (`HouseholderMethod` followed by `QRMethod`), then the
minimum-distance scan over the returned eigenvalues, returning the matching
eigenvector column.  The iteration budget and tolerance of the QR step are
parameters, since the spec does not fix them. -/
def specResolveEigenvector (A : Mat) (targetEigenvalue : ℝ)
    (maxIterations : ℕ) (tolerance : ℝ) : Vec :=
  let hh := HouseholderMethod A
  match QRMethod hh.TriangulizedMatrix hh.HouseholderMatrix maxIterations tolerance with
  | .error _ => []
  | .ok qr =>
      let best := nearestEigenvalueScan qr.Eigenvalues targetEigenvalue
      (List.range qr.Eigenvectors.length).map
        (fun i => matAt qr.Eigenvectors i best.1)

/-! ### Helper lemmas -/

theorem powerLoop_zero (A : Mat) (eps : ℝ) (v : Vec) (lam : ℝ) (it : ℕ) :
    powerLoop A eps 0 v lam it = (lam, v, it) := rfl

theorem powerLoop_succ (A : Mat) (eps : ℝ) (fuel : ℕ) (v : Vec) (lam : ℝ) (it : ℕ) :
    powerLoop A eps (fuel + 1) v lam it =
      if norm2 (mulVec A v) = 0 then (lam, v, it + 1)
      else
        if |(dot (mulVec A v) v - lam) / dot (mulVec A v) v| < eps then
          (dot (mulVec A v) v, scaleVec (1 / norm2 (mulVec A v)) (mulVec A v), it + 1)
        else
          powerLoop A eps fuel (scaleVec (1 / norm2 (mulVec A v)) (mulVec A v))
            (dot (mulVec A v) v) (it + 1) := rfl

theorem specPowerLoop_succ (A : Mat) (eps : ℝ) (fuel : ℕ) (v : Vec) (lam : ℝ) (it : ℕ) :
    specPowerLoop A eps (fuel + 1) v lam it =
      if norm2 (mulVec A v) = 0 then (lam, v, it + 1)
      else
        if |dot (mulVec A v) v - lam| / max (max |dot (mulVec A v) v| |lam|) (1 / 10 ^ 15) < eps then
          (dot (mulVec A v) v, scaleVec (1 / norm2 (mulVec A v)) (mulVec A v), it + 1)
        else
          specPowerLoop A eps fuel (scaleVec (1 / norm2 (mulVec A v)) (mulVec A v))
            (dot (mulVec A v) v) (it + 1) := rfl

theorem amendedPowerLoop_succ (A : Mat) (eps : ℝ) (fuel : ℕ) (v : Vec) (lam : ℝ) (it : ℕ) :
    amendedPowerLoop A eps (fuel + 1) v lam it =
      if norm2 (mulVec A v) = 0 then (lam, v, it + 1)
      else
        if |dot (mulVec A v) v - lam| / |dot (mulVec A v) v| < eps then
          (dot (mulVec A v) v, scaleVec (1 / norm2 (mulVec A v)) (mulVec A v), it + 1)
        else
          amendedPowerLoop A eps fuel (scaleVec (1 / norm2 (mulVec A v)) (mulVec A v))
            (dot (mulVec A v) v) (it + 1) := rfl

theorem qrLoop_succ (tol : ℝ) (fuel : ℕ) (A V : Mat) :
    qrLoop tol (fuel + 1) A V =
      if isConverged A tol then (A, V)
      else
        qrLoop tol fuel
          (addDiag (matMul (qrDecompositionGivens (subDiag A (wilkinsonShift A))).2
            (qrDecompositionGivens (subDiag A (wilkinsonShift A))).1) (wilkinsonShift A))
          (matMul V (qrDecompositionGivens (subDiag A (wilkinsonShift A))).1) := rfl

theorem isConverged_true_of (A : Mat) (tol : ℝ)
    (h : ∀ i < A.length - 1, |matAt A (i + 1) i| ≤ tol) :
    isConverged A tol = true := by
  unfold isConverged
  rw [List.all_eq_true]
  intro x hx
  rw [List.mem_range] at hx
  simp only [Bool.not_eq_true', decide_eq_false_iff_not, not_lt]
  exact h x hx

/-! ### Claim theorems -/

/-- C9: exhausting `maxIterations` is never surfaced as an error by the
iterative solvers.  (1) the power-iteration core always returns a result with
a nil error; (2) the QR eigensolver always returns a result with a nil error;
(3) the degenerate mid-loop condition `norm Y = 0` breaks out of the power
loop early, returning the last valid eigenvalue/eigenvector estimate;
(4) when the fuel runs out the power loop returns the current best
estimate. -/
theorem claim9_nonconvergence_not_error :
    (∀ (A : Mat) (v0 : Vec) (eps : ℝ) (N : ℕ),
      ∃ r, innerRegularPower A v0 eps N = .ok r)
    ∧ (∀ (T Q : Mat) (mi : ℕ) (tol : ℝ), ∃ q, QRMethod T Q mi tol = .ok q)
    ∧ (∀ (A : Mat) (eps : ℝ) (fuel : ℕ) (v : Vec) (lam : ℝ) (it : ℕ),
        norm2 (mulVec A v) = 0 →
        powerLoop A eps (fuel + 1) v lam it = (lam, v, it + 1))
    ∧ (∀ (A : Mat) (eps : ℝ) (v : Vec) (lam : ℝ) (it : ℕ),
        powerLoop A eps 0 v lam it = (lam, v, it)) := by
  refine ⟨fun A v0 eps N => ⟨_, rfl⟩, fun T Q mi tol => ⟨_, rfl⟩, ?_, fun A eps v lam it => rfl⟩
  intro A eps fuel v lam it h
  rw [powerLoop_succ, if_pos h]

/-- Witness for C9 at a concrete degenerate input: the zero matrix sends the
guess to the zero vector, whose norm is zero, and the loop stops after one
iteration with the previous estimate. -/
theorem claim9_witness : powerLoop [[(0 : ℝ)]] 1 1 [1] 0 0 = (0, [1], 0 + 1) := by
  have h : norm2 (mulVec [[(0 : ℝ)]] [1]) = 0 := by
    simp [norm2, mulVec, dot]
  exact claim9_nonconvergence_not_error.2.2.1 [[(0 : ℝ)]] 1 0 [1] 0 0 h

/-- C6: the Wilkinson shift from the trailing 2x2 block `[[a,b],[c,d]]` of
the working matrix: with `trace = a+d`, `det = a*d - b*c` and
`discriminant = trace^2 - 4*det`, the shift is `d` when the discriminant is
negative, and otherwise it is one of the two quadratic roots
`(trace ± sqrt discriminant)/2`, namely one whose absolute distance to `d`
is no larger than either root's. -/
theorem claim6_wilkinson_shift (A : Mat) (a b c d : ℝ) (h2 : 2 ≤ A.length)
    (ha : a = matAt A (A.length - 2) (A.length - 2))
    (hb : b = matAt A (A.length - 2) (A.length - 1))
    (hc : c = matAt A (A.length - 1) (A.length - 2))
    (hd : d = matAt A (A.length - 1) (A.length - 1)) :
    ((a + d) * (a + d) - 4 * (a * d - b * c) < 0 → wilkinsonShift A = d)
    ∧ (0 ≤ (a + d) * (a + d) - 4 * (a * d - b * c) →
        (wilkinsonShift A =
            ((a + d) + Real.sqrt ((a + d) * (a + d) - 4 * (a * d - b * c))) / 2
          ∨ wilkinsonShift A =
            ((a + d) - Real.sqrt ((a + d) * (a + d) - 4 * (a * d - b * c))) / 2)
        ∧ |d - wilkinsonShift A| ≤
            |d - ((a + d) + Real.sqrt ((a + d) * (a + d) - 4 * (a * d - b * c))) / 2|
        ∧ |d - wilkinsonShift A| ≤
            |d - ((a + d) - Real.sqrt ((a + d) * (a + d) - 4 * (a * d - b * c))) / 2|) := by
  subst ha hb hc hd
  have hrew : wilkinsonShift A =
      if (matAt A (A.length - 2) (A.length - 2) + matAt A (A.length - 1) (A.length - 1)) *
          (matAt A (A.length - 2) (A.length - 2) + matAt A (A.length - 1) (A.length - 1)) -
          4 * (matAt A (A.length - 2) (A.length - 2) * matAt A (A.length - 1) (A.length - 1) -
            matAt A (A.length - 2) (A.length - 1) * matAt A (A.length - 1) (A.length - 2)) < 0
      then matAt A (A.length - 1) (A.length - 1)
      else
        if |matAt A (A.length - 1) (A.length - 1) -
              ((matAt A (A.length - 2) (A.length - 2) + matAt A (A.length - 1) (A.length - 1)) +
                Real.sqrt ((matAt A (A.length - 2) (A.length - 2) + matAt A (A.length - 1) (A.length - 1)) *
                  (matAt A (A.length - 2) (A.length - 2) + matAt A (A.length - 1) (A.length - 1)) -
                  4 * (matAt A (A.length - 2) (A.length - 2) * matAt A (A.length - 1) (A.length - 1) -
                    matAt A (A.length - 2) (A.length - 1) * matAt A (A.length - 1) (A.length - 2)))) / 2| <
            |matAt A (A.length - 1) (A.length - 1) -
              ((matAt A (A.length - 2) (A.length - 2) + matAt A (A.length - 1) (A.length - 1)) -
                Real.sqrt ((matAt A (A.length - 2) (A.length - 2) + matAt A (A.length - 1) (A.length - 1)) *
                  (matAt A (A.length - 2) (A.length - 2) + matAt A (A.length - 1) (A.length - 1)) -
                  4 * (matAt A (A.length - 2) (A.length - 2) * matAt A (A.length - 1) (A.length - 1) -
                    matAt A (A.length - 2) (A.length - 1) * matAt A (A.length - 1) (A.length - 2)))) / 2|
        then ((matAt A (A.length - 2) (A.length - 2) + matAt A (A.length - 1) (A.length - 1)) +
              Real.sqrt ((matAt A (A.length - 2) (A.length - 2) + matAt A (A.length - 1) (A.length - 1)) *
                (matAt A (A.length - 2) (A.length - 2) + matAt A (A.length - 1) (A.length - 1)) -
                4 * (matAt A (A.length - 2) (A.length - 2) * matAt A (A.length - 1) (A.length - 1) -
                  matAt A (A.length - 2) (A.length - 1) * matAt A (A.length - 1) (A.length - 2)))) / 2
        else ((matAt A (A.length - 2) (A.length - 2) + matAt A (A.length - 1) (A.length - 1)) -
              Real.sqrt ((matAt A (A.length - 2) (A.length - 2) + matAt A (A.length - 1) (A.length - 1)) *
                (matAt A (A.length - 2) (A.length - 2) + matAt A (A.length - 1) (A.length - 1)) -
                4 * (matAt A (A.length - 2) (A.length - 2) * matAt A (A.length - 1) (A.length - 1) -
                  matAt A (A.length - 2) (A.length - 1) * matAt A (A.length - 1) (A.length - 2)))) / 2 := by
    unfold wilkinsonShift
    rw [if_neg (by omega : ¬ A.length < 2)]
  constructor
  · intro hneg
    rw [hrew, if_pos hneg]
  · intro hnonneg
    rw [hrew, if_neg (not_lt.mpr hnonneg)]
    by_cases hcl : |matAt A (A.length - 1) (A.length - 1) -
        ((matAt A (A.length - 2) (A.length - 2) + matAt A (A.length - 1) (A.length - 1)) +
          Real.sqrt ((matAt A (A.length - 2) (A.length - 2) + matAt A (A.length - 1) (A.length - 1)) *
            (matAt A (A.length - 2) (A.length - 2) + matAt A (A.length - 1) (A.length - 1)) -
            4 * (matAt A (A.length - 2) (A.length - 2) * matAt A (A.length - 1) (A.length - 1) -
              matAt A (A.length - 2) (A.length - 1) * matAt A (A.length - 1) (A.length - 2)))) / 2| <
      |matAt A (A.length - 1) (A.length - 1) -
        ((matAt A (A.length - 2) (A.length - 2) + matAt A (A.length - 1) (A.length - 1)) -
          Real.sqrt ((matAt A (A.length - 2) (A.length - 2) + matAt A (A.length - 1) (A.length - 1)) *
            (matAt A (A.length - 2) (A.length - 2) + matAt A (A.length - 1) (A.length - 1)) -
            4 * (matAt A (A.length - 2) (A.length - 2) * matAt A (A.length - 1) (A.length - 1) -
              matAt A (A.length - 2) (A.length - 1) * matAt A (A.length - 1) (A.length - 2)))) / 2|
    · rw [if_pos hcl]
      exact ⟨Or.inl rfl, le_refl _, le_of_lt hcl⟩
    · rw [if_neg hcl]
      exact ⟨Or.inr rfl, not_lt.mp hcl, le_refl _⟩

/-- Witness for C6: the negative-discriminant branch at `[[0,1],[-1,0]]`
(shift falls back to `d = 0`) and the nonnegative branch at `[[3,1],[1,3]]`
(shift is one of the two quadratic roots). -/
theorem claim6_witness :
    wilkinsonShift [[(0 : ℝ), 1], [-1, 0]] = matAt [[(0 : ℝ), 1], [-1, 0]] 1 1
    ∧ (wilkinsonShift [[(3 : ℝ), 1], [1, 3]] =
        ((3 + 3) + Real.sqrt ((3 + 3) * (3 + 3) - 4 * (3 * 3 - 1 * 1))) / 2
      ∨ wilkinsonShift [[(3 : ℝ), 1], [1, 3]] =
        ((3 + 3) - Real.sqrt ((3 + 3) * (3 + 3) - 4 * (3 * 3 - 1 * 1))) / 2) := by
  constructor
  · exact (claim6_wilkinson_shift [[(0 : ℝ), 1], [-1, 0]] 0 1 (-1) 0 (by norm_num)
      (by simp [matAt]) (by simp [matAt]) (by simp [matAt]) (by simp [matAt])).1
      (by norm_num)
  · exact ((claim6_wilkinson_shift [[(3 : ℝ), 1], [1, 3]] 3 1 1 3 (by norm_num)
      (by simp [matAt]) (by simp [matAt]) (by simp [matAt]) (by simp [matAt])).2
      (by norm_num)).1

/-- C7: on a tridiagonal input whose sub-diagonal entries are all within the
tolerance, the QR eigensolver breaks at the very first convergence check: it
returns the diagonal of `T` as the eigenvalues and the passed-in accumulated
matrix `Q` unchanged. -/
theorem claim7_qr_converged (T Q : Mat) (maxIterations : ℕ) (tol : ℝ)
    (h1 : 1 ≤ maxIterations)
    (hconv : ∀ i < T.length - 1, |matAt T (i + 1) i| ≤ tol) :
    QRMethod T Q maxIterations tol =
      .ok ⟨(List.range T.length).map (fun i => matAt T i i), Q⟩ := by
  obtain ⟨m, rfl⟩ : ∃ m, maxIterations = m + 1 := ⟨maxIterations - 1, by omega⟩
  unfold QRMethod
  rw [qrLoop_succ, if_pos (isConverged_true_of T tol hconv)]

/-- Witness for C7 at the already-diagonal matrix `[[5,0],[0,3]]` with the
identity accumulator. -/
theorem claim7_witness :
    QRMethod [[(5 : ℝ), 0], [0, 3]] [[(1 : ℝ), 0], [0, 1]] 1 0 =
      .ok ⟨(List.range ([[(5 : ℝ), 0], [0, 3]] : Mat).length).map
        (fun i => matAt [[(5 : ℝ), 0], [0, 3]] i i), [[(1 : ℝ), 0], [0, 1]]⟩ := by
  refine claim7_qr_converged [[(5 : ℝ), 0], [0, 3]] [[(1 : ℝ), 0], [0, 1]] 1 0
    (le_refl 1) ?_
  intro i hi
  simp only [List.length_cons, List.length_nil] at hi
  have h0 : i = 0 := by omega
  subst h0
  simp [matAt]

/-- Zeta-expanded form of `givensRotation`, for rewriting. -/
theorem givensRotation_eq (a b : ℝ) :
    givensRotation a b =
      if |b| < 1 / 10 ^ 14 then (1, 0)
      else if |b| > |a| then
        ((if b < 0 then -(1 / Real.sqrt (1 + a / b * (a / b))) else 1 / Real.sqrt (1 + a / b * (a / b))) * (a / b),
         if b < 0 then -(1 / Real.sqrt (1 + a / b * (a / b))) else 1 / Real.sqrt (1 + a / b * (a / b)))
      else
        ((if a < 0 then -(1 / Real.sqrt (1 + b / a * (b / a))) else 1 / Real.sqrt (1 + b / a * (b / a))),
         (if a < 0 then -(1 / Real.sqrt (1 + b / a * (b / a))) else 1 / Real.sqrt (1 + b / a * (b / a))) * (b / a)) := rfl

/-- C5 (amended): the Givens rotation parameters follow the numerically
stable rule — `(c,s) = (1,0)` when `|b| < 1e-14`, and otherwise the branch
dividing by the larger of `|a|`, `|b|` is taken; the sign is chosen so that
the returned `c` carries the sign of `a` (`c ≥ 0` whenever `a ≥ 0`, and
`c ≤ 0` whenever `a ≤ 0`), not so that `c ≥ 0` unconditionally. -/
theorem claim5_givens_rotation (a b : ℝ) :
    (|b| < 1 / 10 ^ 14 → givensRotation a b = (1, 0))
    ∧ (¬ |b| < 1 / 10 ^ 14 →
        (0 ≤ a → 0 ≤ (givensRotation a b).1) ∧ (a ≤ 0 → (givensRotation a b).1 ≤ 0)) := by
  constructor
  · intro h
    rw [givensRotation_eq, if_pos h]
  · intro h
    rw [givensRotation_eq, if_neg h]
    have hbpos : 0 < |b| := lt_of_lt_of_le (by norm_num) (not_lt.mp h)
    have hbne : b ≠ 0 := fun hb => by rw [hb, abs_zero] at hbpos; exact lt_irrefl 0 hbpos
    by_cases hba : |b| > |a|
    · rw [if_pos hba]
      have hsq : 0 < Real.sqrt (1 + a / b * (a / b)) := Real.sqrt_pos.mpr (by nlinarith [mul_self_nonneg (a / b)])
      have hs0 : 0 < 1 / Real.sqrt (1 + a / b * (a / b)) := one_div_pos.mpr hsq
      constructor
      · intro hA
        by_cases hbneg : b < 0
        · rw [if_pos hbneg]
          simp only
          have hdiv : a / b ≤ 0 := div_nonpos_iff.mpr (Or.inl ⟨hA, le_of_lt hbneg⟩)
          nlinarith
        · rw [if_neg hbneg]
          have hb0 : 0 < b := lt_of_le_of_ne (not_lt.mp hbneg) (Ne.symm hbne)
          have hdiv : 0 ≤ a / b := div_nonneg hA (le_of_lt hb0)
          positivity
      · intro hA
        by_cases hbneg : b < 0
        · rw [if_pos hbneg]
          have hdiv : 0 ≤ a / b := div_nonneg_of_nonpos hA (le_of_lt hbneg)
          nlinarith
        · rw [if_neg hbneg]
          have hb0 : 0 < b := lt_of_le_of_ne (not_lt.mp hbneg) (Ne.symm hbne)
          have hdiv : a / b ≤ 0 := div_nonpos_iff.mpr (Or.inr ⟨hA, le_of_lt hb0⟩)
          nlinarith
    · rw [if_neg hba]
      have hsq2 : 0 < Real.sqrt (1 + b / a * (b / a)) := Real.sqrt_pos.mpr (by nlinarith [mul_self_nonneg (b / a)])
      have hc0 : 0 < 1 / Real.sqrt (1 + b / a * (b / a)) := one_div_pos.mpr hsq2
      constructor
      · intro hA
        have hane : a ≠ 0 := by
          intro h0
          rw [h0, abs_zero] at hba
          exact hba hbpos
        rw [if_neg (not_lt.mpr hA)]
        exact le_of_lt hc0
      · intro hA
        by_cases haneg : a < 0
        · rw [if_pos haneg]
          simp only [neg_nonpos]
          exact le_of_lt hc0
        · exfalso
          have ha0 : a = 0 := le_antisymm hA (not_lt.mp haneg)
          rw [ha0, abs_zero] at hba
          exact hba hbpos

/-- Counterexample for C5 as stated: at `a = -1`, `b = 1/2` the second
stable branch is taken and the returned `c` is strictly negative, refuting
"the returned c satisfies c ≥ 0 in all cases". -/
theorem claim5_counterexample : (givensRotation (-1) (1 / 2)).1 < 0 := by
  have hb : |(1 / 2 : ℝ)| = 1 / 2 := abs_of_pos (by norm_num)
  have ha : |(-1 : ℝ)| = 1 := by rw [abs_neg, abs_one]
  rw [givensRotation_eq, if_neg (by rw [hb]; norm_num), if_neg (by rw [hb, ha]; norm_num),
    if_pos (by norm_num : (-1 : ℝ) < 0)]
  simp only [neg_neg, neg_lt_zero]
  positivity

/-- Witness for C5: the trivial branch at `(1, 0)` and both sign conclusions
of the stable branch at `a = -1`, `b = 1/2` and at `a = 1`, `b = 1/2`. -/
theorem claim5_witness :
    givensRotation 1 0 = (1, 0)
    ∧ 0 ≤ (givensRotation 1 (1 / 2)).1
    ∧ (givensRotation (-1) (1 / 2)).1 ≤ 0 := by
  have hb : ¬ |(1 / 2 : ℝ)| < 1 / 10 ^ 14 := by
    rw [abs_of_pos (by norm_num : (0 : ℝ) < 1 / 2)]
    norm_num
  exact ⟨(claim5_givens_rotation 1 0).1 (by rw [abs_zero]; norm_num),
    ((claim5_givens_rotation 1 (1 / 2)).2 hb).1 (by norm_num),
    ((claim5_givens_rotation (-1) (1 / 2)).2 hb).2 (by norm_num)⟩

/-! ### Matrix-shape helper lemmas -/

theorem zipWith_range_congr {α β γ : Type} (F G : α → β → γ) (U V : ℕ → β)
    (h : ∀ x i, F x (U i) = G x (V i)) :
    ∀ (l : List α) (n : ℕ),
      List.zipWith F l ((List.range n).map U) = List.zipWith G l ((List.range n).map V) := by
  intro l
  induction l generalizing U V with
  | nil => intro n; simp
  | cons x xs ih =>
      intro n
      cases n with
      | zero => simp
      | succ m =>
          rw [List.range_succ_eq_map, List.map_cons, List.map_cons,
            List.map_map, List.map_map, List.zipWith_cons_cons, List.zipWith_cons_cons,
            h x 0]
          congr 1
          exact ih (fun i => U (Nat.succ i)) (fun i => V (Nat.succ i))
            (fun y i => h y (Nat.succ i)) m

theorem addMat_scalarDiag_eq_subMat (M : Mat) (n : ℕ) (s : ℝ) :
    addMat M (scalarDiagMatrix n (-1 * s)) =
      subMat M (smulMat s (generateIdentityMatrix n)) := by
  unfold addMat subMat scalarDiagMatrix smulMat generateIdentityMatrix scaleVec
  rw [List.map_map]
  refine zipWith_range_congr _ _ _ _ (fun row i => ?_) M n
  simp only [Function.comp]
  rw [List.map_map]
  refine zipWith_range_congr _ _ _ _ (fun x j => ?_) row n
  simp only [Function.comp]
  by_cases hij : i = j
  · rw [if_pos hij, if_pos hij]; ring
  · rw [if_neg hij, if_neg hij]; ring

theorem reshape_self (M : Mat) (h : ∀ row ∈ M, row.length = numCols M) :
    (List.range M.length).map (fun i =>
      (List.range (numCols M)).map (fun j => matAt M i j)) = M := by
  apply List.ext_getElem
  · simp
  · intro i h1 h2
    rw [List.getElem_map, List.getElem_range]
    apply List.ext_getElem
    · rw [List.length_map, List.length_range]
      exact (h M[i] (List.getElem_mem h2)).symm
    · intro j hj1 hj2
      rw [List.getElem_map, List.getElem_range]
      unfold matAt
      rw [List.getD_eq_getElem M [] h2, List.getD_eq_getElem M[i] 0 hj2]

theorem constructMatrix_self (M : Mat) (h : ∀ row ∈ M, row.length = numCols M) :
    constructMatrix M = M := reshape_self M h

theorem denseToSliceOfSlices_self (M : Mat) (h : ∀ row ∈ M, row.length = numCols M) :
    denseToSliceOfSlices M = M := reshape_self M h

theorem rows_to_numCols (X : Mat) (n : ℕ) (h : ∀ row ∈ X, row.length = n) :
    ∀ row ∈ X, row.length = numCols X := by
  intro row hrow
  cases X with
  | nil => exact absurd hrow (List.not_mem_nil row)
  | cons first rest =>
      have hf : first.length = n := h first (List.mem_cons_self first rest)
      have hr : row.length = n := h row hrow
      simp only [numCols, List.headD_cons]
      rw [hr, hf]

theorem zipWith_rows_length (M D : Mat) (n : ℕ) (f : ℝ → ℝ → ℝ)
    (hM : ∀ row ∈ M, row.length = n) (hD : ∀ drow ∈ D, drow.length = n) :
    ∀ row ∈ List.zipWith (List.zipWith f) M D, row.length = n := by
  intro row hrow
  rcases List.mem_iff_getElem.mp hrow with ⟨i, hi, hrowi⟩
  rw [List.length_zipWith] at hi
  have hiM : i < M.length := lt_of_lt_of_le hi (min_le_left _ _)
  have hiD : i < D.length := lt_of_lt_of_le hi (min_le_right _ _)
  rw [← hrowi, List.getElem_zipWith, List.length_zipWith,
    hM M[i] (List.getElem_mem hiM), hD D[i] (List.getElem_mem hiD), min_self]

theorem smulIdentity_rows_length (n : ℕ) (s : ℝ) :
    ∀ drow ∈ smulMat s (generateIdentityMatrix n), drow.length = n := by
  intro drow hrow
  unfold smulMat generateIdentityMatrix scaleVec at hrow
  rcases List.mem_map.mp hrow with ⟨irow, hirow, hd⟩
  rcases List.mem_map.mp hirow with ⟨i, _, hi⟩
  rw [← hd, List.length_map, ← hi, List.length_map, List.length_range]

/-! ### C8: RegularPower validation -/

/-- C8: `RegularPower` validates its inputs before iterating and returns an
error with no result exactly in the three spec cases, in this order: the
all-zero (or empty) initial guess gives `ZeroInitialGuess`, an empty matrix
gives `EmptyMatrix`, a column count different from the guess length gives
`DimensionMismatch`; otherwise it returns a result with a nil error.  In
particular, the initial guess `[0,0]` always yields `ZeroInitialGuess`. -/
theorem claim8_regular_power_validation (matrix : Mat) (initialGuess : Vec)
    (eps : ℝ) (N : ℕ) :
    ((∀ x ∈ initialGuess, x = 0) →
      RegularPower matrix initialGuess eps N = .error .zeroInitialGuess)
    ∧ (¬ (∀ x ∈ initialGuess, x = 0) →
        (matrix.length = 0 ∨ numCols matrix = 0) →
        RegularPower matrix initialGuess eps N = .error .emptyMatrix)
    ∧ (¬ (∀ x ∈ initialGuess, x = 0) →
        ¬ (matrix.length = 0 ∨ numCols matrix = 0) →
        numCols matrix ≠ initialGuess.length →
        RegularPower matrix initialGuess eps N = .error .dimensionMismatch)
    ∧ (¬ (∀ x ∈ initialGuess, x = 0) →
        ¬ (matrix.length = 0 ∨ numCols matrix = 0) →
        numCols matrix = initialGuess.length →
        ∃ r, RegularPower matrix initialGuess eps N = .ok r)
    ∧ RegularPower matrix [(0 : ℝ), 0] eps N = .error .zeroInitialGuess := by
  refine ⟨?_, ?_, ?_, ?_, ?_⟩
  · intro h
    unfold RegularPower
    rw [if_pos h]
  · intro h he
    unfold RegularPower
    rw [if_neg h, if_pos he]
  · intro h he hd
    unfold RegularPower
    rw [if_neg h, if_neg he, if_pos hd]
  · intro h he hd
    unfold RegularPower
    rw [if_neg h, if_neg he, if_neg (by rw [hd]; exact fun hne => hne rfl)]
    exact ⟨_, rfl⟩
  · unfold RegularPower
    rw [if_pos (by intro x hx; rcases List.mem_cons.mp hx with rfl | hx2
                   · rfl
                   · rcases List.mem_cons.mp hx2 with rfl | hx3
                     · rfl
                     · exact absurd hx3 (List.not_mem_nil x))]

/-- Witness for C8: each validation branch at a concrete input. -/
theorem claim8_witness :
    RegularPower [[(1 : ℝ)]] [0] 1 1 = .error .zeroInitialGuess
    ∧ RegularPower ([] : Mat) [(1 : ℝ)] 1 1 = .error .emptyMatrix
    ∧ RegularPower [[(1 : ℝ), 2]] [5] 1 1 = .error .dimensionMismatch
    ∧ (∃ r, RegularPower [[(2 : ℝ)]] [1] 1 1 = .ok r)
    ∧ RegularPower [[(1 : ℝ)]] [(0 : ℝ), 0] 1 1 = .error .zeroInitialGuess := by
  have hnz1 : ¬ (∀ x ∈ [(1 : ℝ)], x = 0) := by
    intro h
    exact absurd (h 1 (List.mem_singleton_self 1)) (by norm_num)
  have hnz5 : ¬ (∀ x ∈ [(5 : ℝ)], x = 0) := by
    intro h
    exact absurd (h 5 (List.mem_singleton_self 5)) (by norm_num)
  refine ⟨(claim8_regular_power_validation [[(1 : ℝ)]] [0] 1 1).1
      (fun x hx => by rcases List.mem_singleton.mp hx with rfl; rfl),
    (claim8_regular_power_validation ([] : Mat) [(1 : ℝ)] 1 1).2.1 hnz1
      (Or.inl rfl),
    (claim8_regular_power_validation [[(1 : ℝ), 2]] [5] 1 1).2.2.1 hnz5
      (by simp [numCols]) (by simp [numCols]),
    (claim8_regular_power_validation [[(2 : ℝ)]] [1] 1 1).2.2.2.1
      (by intro h; exact absurd (h 1 (List.mem_singleton_self 1)) (by norm_num))
      (by simp [numCols]) (by simp [numCols]),
    (claim8_regular_power_validation [[(1 : ℝ)]] [1] 1 1).2.2.2.2⟩

/-! ### InversePower helper lemmas -/

theorem inverse_power_none (inv : InverseOracle) (M : Mat) (v0 : Vec)
    (eps : ℝ) (N : ℕ) (hM : ∀ row ∈ M, row.length = numCols M)
    (h : inv M = none) :
    InversePower inv M v0 eps N = .error (.wrapped .singularMatrix) := by
  unfold InversePower
  simp only [constructMatrix_self M hM, h]

theorem inverse_power_some (inv : InverseOracle) (M : Mat) (v0 : Vec)
    (eps : ℝ) (N : ℕ) (W : Mat) (hM : ∀ row ∈ M, row.length = numCols M)
    (h : inv M = some W) :
    InversePower inv M v0 eps N =
      .ok ⟨1 / (innerPowerResult W v0 eps N).Eigenvalue,
           (innerPowerResult W v0 eps N).Eigenvector,
           (innerPowerResult W v0 eps N).NumIterations⟩ := by
  unfold InversePower
  simp only [constructMatrix_self M hM, h, innerRegularPower, constructVector]

/-- C3: `InversePower` first inverts the input matrix, returning a
singular-matrix error with no result exactly when the inversion fails; on
success it runs the shared power core on the inverse and returns eigenvalue
`1 / lambda_core` together with the core's eigenvector and iteration count,
both unchanged. -/
theorem claim3_inverse_power (inv : InverseOracle) (M : Mat) (v0 : Vec)
    (eps : ℝ) (N : ℕ) (hM : ∀ row ∈ M, row.length = numCols M) :
    (inv M = none →
      InversePower inv M v0 eps N = .error (.wrapped .singularMatrix))
    ∧ (∀ W, inv M = some W →
        InversePower inv M v0 eps N =
          .ok ⟨1 / (innerPowerResult W v0 eps N).Eigenvalue,
               (innerPowerResult W v0 eps N).Eigenvector,
               (innerPowerResult W v0 eps N).NumIterations⟩) :=
  ⟨fun h => inverse_power_none inv M v0 eps N hM h,
   fun W h => inverse_power_some inv M v0 eps N W hM h⟩

/-- Witness for C3: both the failing-inversion branch and the successful
branch at the concrete matrix `[[2]]`. -/
theorem claim3_witness :
    InversePower (fun _ => none) [[(2 : ℝ)]] [1] 1 1 =
      .error (.wrapped .singularMatrix)
    ∧ InversePower (fun _ => some [[(1 : ℝ)]]) [[(2 : ℝ)]] [1] 1 1 =
      .ok ⟨1 / (innerPowerResult [[(1 : ℝ)]] [1] 1 1).Eigenvalue,
           (innerPowerResult [[(1 : ℝ)]] [1] 1 1).Eigenvector,
           (innerPowerResult [[(1 : ℝ)]] [1] 1 1).NumIterations⟩ := by
  have hM : ∀ row ∈ ([[(2 : ℝ)]] : Mat), row.length = numCols [[(2 : ℝ)]] := by
    intro row hrow
    rcases List.mem_singleton.mp hrow with rfl
    rfl
  exact ⟨(claim3_inverse_power (fun _ => none) [[(2 : ℝ)]] [1] 1 1 hM).1 rfl,
    (claim3_inverse_power (fun _ => some [[(1 : ℝ)]]) [[(2 : ℝ)]] [1] 1 1 hM).2
      [[(1 : ℝ)]] rfl⟩

/-- C2: the shifted power variants.  `FarthestEigenvaluePower` runs the
shared core on `M - s*I` (built in the code as `M + diag(-1*s)`) and reports
the eigenvalue `lambda_core + s`; `NearestEigenvaluePower` runs
`InversePower` on `M - s*I` and reports the eigenvalue it returns plus `s`.
In both cases the eigenvector is recovered from the original matrix by the
correspondence resolver. -/
theorem claim2_shifted_power (eig : EigenOracle) (inv : InverseOracle)
    (M : Mat) (v0 : Vec) (s eps : ℝ) (N : ℕ)
    (hM : ∀ row ∈ M, row.length = numCols M) :
    (FarthestEigenvaluePower eig M v0 s eps N =
      match extractEigenvectorFromMatrix eig M
          ((innerPowerResult (subMat M (smulMat s (generateIdentityMatrix (numCols M))))
            v0 eps N).Eigenvalue + s) with
      | .error e => .error (.wrapped e)
      | .ok vec =>
          .ok ⟨(innerPowerResult (subMat M (smulMat s (generateIdentityMatrix (numCols M))))
                v0 eps N).Eigenvalue + s, vec,
              (innerPowerResult (subMat M (smulMat s (generateIdentityMatrix (numCols M))))
                v0 eps N).NumIterations⟩)
    ∧ (NearestEigenvaluePower inv eig M v0 s eps N =
      match InversePower inv (subMat M (smulMat s (generateIdentityMatrix (numCols M))))
          v0 eps N with
      | .error e => .error (.wrapped e)
      | .ok r =>
          match extractEigenvectorFromMatrix eig M (r.Eigenvalue + s) with
          | .error e => .error (.wrapped e)
          | .ok vec => .ok ⟨r.Eigenvalue + s, vec, r.NumIterations⟩) := by
  have hA : constructMatrix M = M := constructMatrix_self M hM
  have hshift : addMat M (scalarDiagMatrix (numCols M) (-1 * s)) =
      subMat M (smulMat s (generateIdentityMatrix (numCols M))) :=
    addMat_scalarDiag_eq_subMat M (numCols M) s
  have hround : denseToSliceOfSlices
      (subMat M (smulMat s (generateIdentityMatrix (numCols M)))) =
      subMat M (smulMat s (generateIdentityMatrix (numCols M))) := by
    apply denseToSliceOfSlices_self
    apply rows_to_numCols _ (numCols M)
    exact zipWith_rows_length M (smulMat s (generateIdentityMatrix (numCols M)))
      (numCols M) (fun x y => x - y) hM (smulIdentity_rows_length (numCols M) s)
  constructor
  · unfold FarthestEigenvaluePower
    simp only [hA, hshift, innerRegularPower, constructVector]
  · unfold NearestEigenvaluePower
    simp only [hA, hshift, hround]

/-- Witness for C2 at a concrete shifted 2x2 problem. -/
theorem claim2_witness :
    (FarthestEigenvaluePower (fun _ => some ([1], [[1, 0], [0, 1]]))
        [[(2 : ℝ), 0], [0, 1]] [1, 1] 1 1 1 =
      match extractEigenvectorFromMatrix (fun _ => some ([1], [[1, 0], [0, 1]]))
          [[(2 : ℝ), 0], [0, 1]]
          ((innerPowerResult (subMat [[(2 : ℝ), 0], [0, 1]]
              (smulMat 1 (generateIdentityMatrix (numCols [[(2 : ℝ), 0], [0, 1]]))))
            [1, 1] 1 1).Eigenvalue + 1) with
      | .error e => .error (.wrapped e)
      | .ok vec =>
          .ok ⟨(innerPowerResult (subMat [[(2 : ℝ), 0], [0, 1]]
                (smulMat 1 (generateIdentityMatrix (numCols [[(2 : ℝ), 0], [0, 1]]))))
                [1, 1] 1 1).Eigenvalue + 1, vec,
              (innerPowerResult (subMat [[(2 : ℝ), 0], [0, 1]]
                (smulMat 1 (generateIdentityMatrix (numCols [[(2 : ℝ), 0], [0, 1]]))))
                [1, 1] 1 1).NumIterations⟩)
    ∧ (NearestEigenvaluePower (fun _ => some [[1, 0], [0, 1]])
        (fun _ => some ([1], [[1, 0], [0, 1]])) [[(2 : ℝ), 0], [0, 1]] [1, 1] 1 1 1 =
      match InversePower (fun _ => some [[1, 0], [0, 1]])
          (subMat [[(2 : ℝ), 0], [0, 1]]
            (smulMat 1 (generateIdentityMatrix (numCols [[(2 : ℝ), 0], [0, 1]]))))
          [1, 1] 1 1 with
      | .error e => .error (.wrapped e)
      | .ok r =>
          match extractEigenvectorFromMatrix (fun _ => some ([1], [[1, 0], [0, 1]]))
              [[(2 : ℝ), 0], [0, 1]] (r.Eigenvalue + 1) with
          | .error e => .error (.wrapped e)
          | .ok vec => .ok ⟨r.Eigenvalue + 1, vec, r.NumIterations⟩) := by
  refine claim2_shifted_power (fun _ => some ([1], [[1, 0], [0, 1]]))
    (fun _ => some [[1, 0], [0, 1]]) [[(2 : ℝ), 0], [0, 1]] [1, 1] 1 1 1 ?_
  intro row hrow
  rcases List.mem_cons.mp hrow with rfl | hrow2
  · rfl
  · rcases List.mem_singleton.mp hrow2 with rfl
    rfl

/-! ### Sum-of-squares helper for C10 -/

theorem dot_self_zero_of_allzero (v : Vec) (hz : ∀ x ∈ v, x = 0) :
    dot v v = 0 := by
  induction v with
  | nil => rfl
  | cons x xs ih =>
      unfold dot at ih ⊢
      rw [List.zipWith_cons_cons, List.sum_cons, hz x (List.mem_cons_self x xs),
        ih (fun y hy => hz y (List.mem_cons_of_mem x hy))]
      ring

/-- C10: neither `InversePower` nor `FarthestEigenvaluePower` validates the
initial guess: with an all-zero guess (whose L2 norm is 0, the divisor used
to normalize it) and a successfully inverted / factorized matrix, both
proceed into the iteration core and return a `PowerResult` with a nil error,
never a `ZeroInitialGuess` error. -/
theorem claim10_shifted_variants_skip_validation (inv : InverseOracle)
    (eig : EigenOracle) (M W : Mat) (vals : List ℝ) (vecs : Mat) (v0 : Vec)
    (s eps : ℝ) (N : ℕ)
    (hM : ∀ row ∈ M, row.length = numCols M)
    (hz : ∀ x ∈ v0, x = 0)
    (hinv : inv M = some W)
    (heig : eig M = some (vals, vecs)) :
    norm2 v0 = 0
    ∧ InversePower inv M v0 eps N =
        .ok ⟨1 / (innerPowerResult W v0 eps N).Eigenvalue,
             (innerPowerResult W v0 eps N).Eigenvector,
             (innerPowerResult W v0 eps N).NumIterations⟩
    ∧ (∃ r, FarthestEigenvaluePower eig M v0 s eps N = .ok r) := by
  refine ⟨?_, inverse_power_some inv M v0 eps N W hM hinv, ?_⟩
  · unfold norm2
    rw [dot_self_zero_of_allzero v0 hz, Real.sqrt_zero]
  · unfold FarthestEigenvaluePower extractEigenvectorFromMatrix
    simp only [constructMatrix_self M hM, heig, innerRegularPower]
    exact ⟨_, rfl⟩

/-- Witness for C10 at a concrete invertible matrix with the all-zero
guess `[0, 0]`. -/
theorem claim10_witness :
    norm2 [(0 : ℝ), 0] = 0
    ∧ InversePower (fun _ => some [[(1 : ℝ), 0], [0, 1]]) [[(1 : ℝ), 0], [0, 1]]
        [0, 0] 1 1 =
      .ok ⟨1 / (innerPowerResult [[(1 : ℝ), 0], [0, 1]] [0, 0] 1 1).Eigenvalue,
           (innerPowerResult [[(1 : ℝ), 0], [0, 1]] [0, 0] 1 1).Eigenvector,
           (innerPowerResult [[(1 : ℝ), 0], [0, 1]] [0, 0] 1 1).NumIterations⟩
    ∧ (∃ r, FarthestEigenvaluePower (fun _ => some ([1], [[1, 0], [0, 1]]))
        [[(1 : ℝ), 0], [0, 1]] [0, 0] 1 1 1 = .ok r) := by
  refine claim10_shifted_variants_skip_validation
    (fun _ => some [[(1 : ℝ), 0], [0, 1]]) (fun _ => some ([1], [[1, 0], [0, 1]]))
    [[(1 : ℝ), 0], [0, 1]] [[(1 : ℝ), 0], [0, 1]] [1] [[1, 0], [0, 1]]
    [0, 0] 1 1 1 ?_ ?_ rfl rfl
  · intro row hrow
    rcases List.mem_cons.mp hrow with rfl | hrow2
    · rfl
    · rcases List.mem_singleton.mp hrow2 with rfl
      rfl
  · intro x hx
    rcases List.mem_cons.mp hx with rfl | hx2
    · rfl
    · rcases List.mem_singleton.mp hx2 with rfl
      rfl

/-! ### C4: the eigenpair correspondence resolver -/

theorem nearestScan_invariant (t : ℝ) (vals : List ℝ) (m : ℕ) :
    ∃ k : ℕ,
      (List.range m).foldl
        (fun acc k' =>
          let i := k' + 1
          let diff := |vals.getD i 0 - t|
          if diff < acc.2 then (i, diff) else acc)
        (0, |vals.getD 0 0 - t|) = (k, |vals.getD k 0 - t|)
      ∧ k ≤ m ∧ ∀ j ≤ m, |vals.getD k 0 - t| ≤ |vals.getD j 0 - t| := by
  induction m with
  | zero =>
      refine ⟨0, by simp, le_refl 0, ?_⟩
      intro j hj
      rw [Nat.le_zero.mp hj]
  | succ m ih =>
      obtain ⟨k, hfold, hk, hmin⟩ := ih
      rw [List.range_succ, List.foldl_append, List.foldl_cons, List.foldl_nil, hfold]
      by_cases h : |vals.getD (m + 1) 0 - t| < |vals.getD k 0 - t|
      · refine ⟨m + 1, ?_, le_refl (m + 1), ?_⟩
        · simp only [if_pos h]
        · intro j hj
          by_cases hj' : j ≤ m
          · exact le_trans (le_of_lt h) (hmin j hj')
          · have hje : j = m + 1 := by omega
            rw [hje]
      · refine ⟨k, ?_, Nat.le_succ_of_le hk, ?_⟩
        · simp only [if_neg h]
        · intro j hj
          by_cases hj' : j ≤ m
          · exact hmin j hj'
          · have hje : j = m + 1 := by omega
            rw [hje]
            exact not_lt.mp h

/-- C4 (amended): the correspondence resolver runs the eigen-decomposition
supplied by the external library oracle (`gonum`'s `mat.Eigen`), not the
system's own Householder/QR pipeline; whenever the library factorization
succeeds, it returns the eigenvector column at an index whose eigenvalue
distance `|eigenvalue_k - target|` is minimal over all returned
eigenvalues. -/
theorem claim4_resolver_scan (eig : EigenOracle) (A : Mat) (t : ℝ)
    (vals : List ℝ) (vecs : Mat) (h : eig A = some (vals, vecs)) :
    ∃ k, extractEigenvectorFromMatrix eig A t =
        .ok ((List.range vecs.length).map (fun i => matAt vecs i k))
      ∧ nearestEigenvalueScan vals t = (k, |vals.getD k 0 - t|)
      ∧ k ≤ vals.length - 1
      ∧ ∀ j < vals.length, |vals.getD k 0 - t| ≤ |vals.getD j 0 - t| := by
  obtain ⟨k, hfold, hk, hmin⟩ := nearestScan_invariant t vals (vals.length - 1)
  have hscan : nearestEigenvalueScan vals t = (k, |vals.getD k 0 - t|) := by
    unfold nearestEigenvalueScan
    exact hfold
  refine ⟨k, ?_, hscan, hk, ?_⟩
  · unfold extractEigenvectorFromMatrix
    simp only [h, hscan]
  · intro j hj
    exact hmin j (by omega)

/-- Counterexample for C4 as stated: the resolver's output is governed by the
external library oracle, not by the system's own Householder + QR pipeline —
when the library factorization fails the resolver returns an error instead of
the pipeline's answer `specResolveEigenvector [[2]] 2 100 (1/10^10)`. -/
theorem claim4_counterexample :
    extractEigenvectorFromMatrix (fun _ => none) [[(2 : ℝ)]] 2 ≠
      .ok (specResolveEigenvector [[(2 : ℝ)]] 2 100 (1 / 10 ^ 10)) := by
  intro h
  have hred : extractEigenvectorFromMatrix (fun _ => none) [[(2 : ℝ)]] 2 =
      .error .eigenDecompositionFailed := rfl
  rw [hred] at h
  exact Except.noConfusion h

/-- Witness for C4 at a concrete oracle and matrix. -/
theorem claim4_witness :
    ∃ k, extractEigenvectorFromMatrix (fun _ => some ([3], [[1]])) [[(2 : ℝ)]] 0 =
        .ok ((List.range ([[(1 : ℝ)]] : Mat).length).map (fun i => matAt [[(1 : ℝ)]] i k))
      ∧ nearestEigenvalueScan [(3 : ℝ)] 0 = (k, |[(3 : ℝ)].getD k 0 - 0|)
      ∧ k ≤ [(3 : ℝ)].length - 1
      ∧ ∀ j < [(3 : ℝ)].length, |[(3 : ℝ)].getD k 0 - 0| ≤ |[(3 : ℝ)].getD j 0 - 0| :=
  claim4_resolver_scan (fun _ => some ([3], [[1]])) [[(2 : ℝ)]] 0 [3] [[1]] rfl

/-! ### C1: the relative error of the shared power-iteration core -/

/-- C1 (amended): every step of the shared power-iteration core computes the
relative error as `|lambda_new - lambda_old| / |lambda_new|` — the absolute
difference divided by the absolute value of the new estimate alone, with no
max or floor in the denominator — and the loop stops as soon as this relative
error is `< epsilon`. -/
theorem claim1_power_core_relative_error :
    (∀ (A : Mat) (eps : ℝ) (fuel : ℕ) (v : Vec) (lam : ℝ) (it : ℕ),
      powerLoop A eps fuel v lam it = amendedPowerLoop A eps fuel v lam it)
    ∧ (∀ (A : Mat) (eps : ℝ) (fuel : ℕ) (v : Vec) (lam : ℝ) (it : ℕ),
        norm2 (mulVec A v) ≠ 0 →
        |dot (mulVec A v) v - lam| / |dot (mulVec A v) v| < eps →
        powerLoop A eps (fuel + 1) v lam it =
          (dot (mulVec A v) v,
           scaleVec (1 / norm2 (mulVec A v)) (mulVec A v), it + 1)) := by
  constructor
  · intro A eps fuel
    induction fuel with
    | zero => intro v lam it; rfl
    | succ n ih =>
        intro v lam it
        rw [powerLoop_succ, amendedPowerLoop_succ]
        by_cases h0 : norm2 (mulVec A v) = 0
        · rw [if_pos h0, if_pos h0]
        · rw [if_neg h0, if_neg h0, abs_div]
          by_cases hc : |dot (mulVec A v) v - lam| / |dot (mulVec A v) v| < eps
          · rw [if_pos hc, if_pos hc]
          · rw [if_neg hc, if_neg hc]
            exact ih _ _ _
  · intro A eps fuel v lam it h0 hlt
    rw [powerLoop_succ, if_neg h0, abs_div, if_pos hlt]

/-- Witness for C1 at a concrete converging step. -/
theorem claim1_witness :
    powerLoop [[(2 : ℝ)]] 1 1 [1] 2 0 =
      (dot (mulVec [[(2 : ℝ)]] [1]) [1],
       scaleVec (1 / norm2 (mulVec [[(2 : ℝ)]] [1])) (mulVec [[(2 : ℝ)]] [1]),
       0 + 1) := by
  have hv : mulVec [[(2 : ℝ)]] [1] = [2] := by
    simp [mulVec, dot]
  have hd : dot [(2 : ℝ)] [1] = 2 := by
    simp [dot]
  refine claim1_power_core_relative_error.2 [[(2 : ℝ)]] 1 0 [1] 2 0 ?_ ?_
  · rw [hv]
    unfold norm2
    rw [show dot [(2 : ℝ)] [2] = 4 from by simp [dot]; norm_num]
    exact Real.sqrt_ne_zero'.mpr (by norm_num)
  · rw [hv, hd, sub_self, abs_zero]
    rw [zero_div]
    norm_num

/-- Counterexample for C1 as stated: on the matrix `diag(-3, 2)` with initial
guess `[1, 2]`, `epsilon = 1`, `maxIterations = 3`, the core's loop (which
divides the difference by `|lambda_new|` only) runs all 3 iterations, while
the loop with the claimed `max(|lambda_new|, |lambda_old|, 1e-15)` floor
denominator stops after 2 — so the core does not compute the claimed
relative error. -/
theorem claim1_counterexample :
    innerRegularPower [[(-3 : ℝ), 0], [0, 2]] [1, 2] 1 3 ≠
      specIteratePower [[(-3 : ℝ), 0], [0, 2]] [1, 2] 1 3 := by
  have h5 : Real.sqrt 5 * Real.sqrt 5 = 5 := Real.mul_self_sqrt (by norm_num)
  have h5pos : (0 : ℝ) < Real.sqrt 5 := Real.sqrt_pos.mpr (by norm_num)
  have h5ne : Real.sqrt 5 ≠ 0 := ne_of_gt h5pos
  have hn12 : norm2 [(1 : ℝ), 2] = Real.sqrt 5 := by
    unfold norm2
    congr 1
    simp [dot]
    norm_num
  have hb0 : scaleVec (1 / norm2 [(1 : ℝ), 2]) [(1 : ℝ), 2] =
      [1 / Real.sqrt 5, 2 / Real.sqrt 5] := by
    rw [hn12]
    simp only [scaleVec, List.map_cons, List.map_nil, List.cons.injEq, and_true]
    constructor <;> ring
  -- iteration 1
  have hY1 : mulVec [[(-3 : ℝ), 0], [0, 2]] [1 / Real.sqrt 5, 2 / Real.sqrt 5] =
      [-3 / Real.sqrt 5, 4 / Real.sqrt 5] := by
    simp only [mulVec, dot, List.map_cons, List.map_nil, List.zipWith_cons_cons,
      List.zipWith_nil_right, List.sum_cons, List.sum_nil, List.cons.injEq, and_true]
    constructor <;> ring
  have hd1 : dot [(-3 : ℝ) / Real.sqrt 5, 4 / Real.sqrt 5]
      [-3 / Real.sqrt 5, 4 / Real.sqrt 5] = 5 := by
    simp only [dot, List.zipWith_cons_cons, List.zipWith_nil_right, List.sum_cons,
      List.sum_nil, add_zero]
    rw [div_mul_div_comm, div_mul_div_comm, h5]
    norm_num
  have hnY1 : norm2 [(-3 : ℝ) / Real.sqrt 5, 4 / Real.sqrt 5] = Real.sqrt 5 := by
    unfold norm2
    rw [hd1]
  have hl1 : dot [(-3 : ℝ) / Real.sqrt 5, 4 / Real.sqrt 5]
      [1 / Real.sqrt 5, 2 / Real.sqrt 5] = 1 := by
    simp only [dot, List.zipWith_cons_cons, List.zipWith_nil_right, List.sum_cons,
      List.sum_nil, add_zero]
    rw [div_mul_div_comm, div_mul_div_comm, h5]
    norm_num
  have hv1 : scaleVec (1 / Real.sqrt 5) [(-3 : ℝ) / Real.sqrt 5, 4 / Real.sqrt 5] =
      [-3 / 5, 4 / 5] := by
    simp only [scaleVec, List.map_cons, List.map_nil, List.cons.injEq, and_true]
    constructor <;> (rw [div_mul_div_comm, h5]; norm_num)
  -- iteration 2
  have hY2 : mulVec [[(-3 : ℝ), 0], [0, 2]] [-3 / 5, 4 / 5] = [9 / 5, 8 / 5] := by
    simp only [mulVec, dot, List.map_cons, List.map_nil, List.zipWith_cons_cons,
      List.zipWith_nil_right, List.sum_cons, List.sum_nil, List.cons.injEq, and_true]
    constructor <;> norm_num
  have hd2 : dot [(9 : ℝ) / 5, 8 / 5] [9 / 5, 8 / 5] = 29 / 5 := by
    simp only [dot, List.zipWith_cons_cons, List.zipWith_nil_right, List.sum_cons,
      List.sum_nil, add_zero]
    norm_num
  have hnY2 : norm2 [(9 : ℝ) / 5, 8 / 5] = Real.sqrt (29 / 5) := by
    unfold norm2
    rw [hd2]
  have hs29ne : Real.sqrt (29 / 5) ≠ 0 := Real.sqrt_ne_zero'.mpr (by norm_num)
  have hl2 : dot [(9 : ℝ) / 5, 8 / 5] [-3 / 5, 4 / 5] = 1 / 5 := by
    simp only [dot, List.zipWith_cons_cons, List.zipWith_nil_right, List.sum_cons,
      List.sum_nil, add_zero]
    norm_num
  -- iteration 3 (code loop only)
  have h29 : Real.sqrt (29 / 5) * Real.sqrt (29 / 5) = 29 / 5 :=
    Real.mul_self_sqrt (by norm_num)
  have hu2 : (1 / Real.sqrt (29 / 5)) * (1 / Real.sqrt (29 / 5)) = 5 / 29 := by
    rw [div_mul_div_comm, h29]
    norm_num
  have hv2 : scaleVec (1 / Real.sqrt (29 / 5)) [(9 : ℝ) / 5, 8 / 5] =
      [(1 / Real.sqrt (29 / 5)) * (9 / 5), (1 / Real.sqrt (29 / 5)) * (8 / 5)] := rfl
  have hY3 : mulVec [[(-3 : ℝ), 0], [0, 2]]
      [(1 / Real.sqrt (29 / 5)) * (9 / 5), (1 / Real.sqrt (29 / 5)) * (8 / 5)] =
      [(1 / Real.sqrt (29 / 5)) * (-27 / 5), (1 / Real.sqrt (29 / 5)) * (16 / 5)] := by
    simp only [mulVec, dot, List.map_cons, List.map_nil, List.zipWith_cons_cons,
      List.zipWith_nil_right, List.sum_cons, List.sum_nil, List.cons.injEq, and_true]
    constructor <;> ring
  have hd3 : dot [(1 / Real.sqrt (29 / 5)) * (-27 / 5), (1 / Real.sqrt (29 / 5)) * (16 / 5)]
      [(1 / Real.sqrt (29 / 5)) * (-27 / 5), (1 / Real.sqrt (29 / 5)) * (16 / 5)] =
      197 / 29 := by
    have expand : dot [(1 / Real.sqrt (29 / 5)) * (-27 / 5), (1 / Real.sqrt (29 / 5)) * (16 / 5)]
        [(1 / Real.sqrt (29 / 5)) * (-27 / 5), (1 / Real.sqrt (29 / 5)) * (16 / 5)] =
        ((1 / Real.sqrt (29 / 5)) * (1 / Real.sqrt (29 / 5))) * (197 / 5) := by
      simp only [dot, List.zipWith_cons_cons, List.zipWith_nil_right, List.sum_cons,
        List.sum_nil, add_zero]
      ring
    rw [expand, hu2]
    norm_num
  have hnY3 : norm2 [(1 / Real.sqrt (29 / 5)) * (-27 / 5), (1 / Real.sqrt (29 / 5)) * (16 / 5)] ≠ 0 := by
    unfold norm2
    rw [hd3]
    exact Real.sqrt_ne_zero'.mpr (by norm_num)
  have hl3 : dot [(1 / Real.sqrt (29 / 5)) * (-27 / 5), (1 / Real.sqrt (29 / 5)) * (16 / 5)]
      [(1 / Real.sqrt (29 / 5)) * (9 / 5), (1 / Real.sqrt (29 / 5)) * (8 / 5)] =
      -23 / 29 := by
    have expand : dot [(1 / Real.sqrt (29 / 5)) * (-27 / 5), (1 / Real.sqrt (29 / 5)) * (16 / 5)]
        [(1 / Real.sqrt (29 / 5)) * (9 / 5), (1 / Real.sqrt (29 / 5)) * (8 / 5)] =
        ((1 / Real.sqrt (29 / 5)) * (1 / Real.sqrt (29 / 5))) * (-115 / 25) := by
      simp only [dot, List.zipWith_cons_cons, List.zipWith_nil_right, List.sum_cons,
        List.sum_nil, add_zero]
      ring
    rw [expand, hu2]
    norm_num
  -- the code loop: three iterations
  have herr1 : ¬ (|((1 : ℝ) - 0) / 1| < 1) := by
    rw [sub_zero, div_one, abs_one]
    norm_num
  have hs1 : powerLoop [[(-3 : ℝ), 0], [0, 2]] 1 3 [1 / Real.sqrt 5, 2 / Real.sqrt 5] 0 0 =
      powerLoop [[(-3 : ℝ), 0], [0, 2]] 1 2 [-3 / 5, 4 / 5] 1 1 := by
    rw [powerLoop_succ]
    simp only [hY1, hnY1, hl1]
    rw [if_neg h5ne, if_neg herr1]
    simp only [hv1]
  have herr2 : ¬ (|((1 : ℝ) / 5 - 1) / (1 / 5)| < 1) := by
    rw [show ((1 : ℝ) / 5 - 1) / (1 / 5) = -4 by norm_num, abs_neg,
      abs_of_pos (by norm_num : (0 : ℝ) < 4)]
    norm_num
  have hs2 : powerLoop [[(-3 : ℝ), 0], [0, 2]] 1 2 [-3 / 5, 4 / 5] 1 1 =
      powerLoop [[(-3 : ℝ), 0], [0, 2]] 1 1
        (scaleVec (1 / Real.sqrt (29 / 5)) [(9 : ℝ) / 5, 8 / 5]) (1 / 5) 2 := by
    rw [powerLoop_succ]
    simp only [hY2, hnY2, hl2]
    rw [if_neg hs29ne, if_neg herr2]
  have herr3 : ¬ (|((-23 : ℝ) / 29 - 1 / 5) / (-23 / 29)| < 1) := by
    rw [show ((-23 : ℝ) / 29 - 1 / 5) / (-23 / 29) = 4176 / 3335 by norm_num,
      abs_of_pos (by norm_num : (0 : ℝ) < 4176 / 3335)]
    norm_num
  have hs3 : (powerLoop [[(-3 : ℝ), 0], [0, 2]] 1 1
      (scaleVec (1 / Real.sqrt (29 / 5)) [(9 : ℝ) / 5, 8 / 5]) (1 / 5) 2).2.2 = 3 := by
    rw [hv2, powerLoop_succ]
    simp only [hY3, hl3]
    rw [if_neg hnY3, if_neg herr3, powerLoop_zero]
  have hcode : (innerPowerResult [[(-3 : ℝ), 0], [0, 2]] [1, 2] 1 3).NumIterations = 3 := by
    show (powerLoop [[(-3 : ℝ), 0], [0, 2]] 1 3
      (scaleVec (1 / norm2 [(1 : ℝ), 2]) [(1 : ℝ), 2]) 0 0).2.2 = 3
    rw [hb0, hs1, hs2]
    exact hs3
  -- the specified loop: stops after two iterations
  have hsperr1 : ¬ (|(1 : ℝ) - 0| / max (max |(1 : ℝ)| |(0 : ℝ)|) (1 / 10 ^ 15) < 1) := by
    rw [sub_zero, abs_one, abs_zero, max_eq_left zero_le_one,
      max_eq_left (by norm_num : (1 : ℝ) / 10 ^ 15 ≤ 1)]
    norm_num
  have hsp1 : specPowerLoop [[(-3 : ℝ), 0], [0, 2]] 1 3 [1 / Real.sqrt 5, 2 / Real.sqrt 5] 0 0 =
      specPowerLoop [[(-3 : ℝ), 0], [0, 2]] 1 2 [-3 / 5, 4 / 5] 1 1 := by
    rw [specPowerLoop_succ]
    simp only [hY1, hnY1, hl1]
    rw [if_neg h5ne, if_neg hsperr1]
    simp only [hv1]
  have hsperr2 : |(1 : ℝ) / 5 - 1| / max (max |(1 : ℝ) / 5| |(1 : ℝ)|) (1 / 10 ^ 15) < 1 := by
    rw [show ((1 : ℝ) / 5 - 1) = -(4 / 5) by norm_num, abs_neg,
      abs_of_pos (by norm_num : (0 : ℝ) < 4 / 5),
      abs_of_pos (by norm_num : (0 : ℝ) < 1 / 5), abs_one,
      max_eq_right (by norm_num : (1 : ℝ) / 5 ≤ 1),
      max_eq_left (by norm_num : (1 : ℝ) / 10 ^ 15 ≤ 1)]
    norm_num
  have hsp2 : (specPowerLoop [[(-3 : ℝ), 0], [0, 2]] 1 2 [-3 / 5, 4 / 5] 1 1).2.2 = 2 := by
    rw [specPowerLoop_succ]
    simp only [hY2, hnY2, hl2]
    rw [if_neg hs29ne, if_pos hsperr2]
  have hspec : (specPowerLoop [[(-3 : ℝ), 0], [0, 2]] 1 3
      (scaleVec (1 / norm2 [(1 : ℝ), 2]) [(1 : ℝ), 2]) 0 0).2.2 = 2 := by
    rw [hb0, hsp1]
    exact hsp2
  intro heq
  have h3 : (3 : ℕ) = 2 := by
    rw [← hcode, ← hspec]
    exact congrArg (fun r : Except NumeError PowerResult =>
      match r with
      | .ok p => p.NumIterations
      | .error _ => 0) heq
  exact absurd h3 (by norm_num)

end









